import Mathlib

/-!
Verification of the Plan/Apply tool-calling core of the `excel-ai-agent`
repository: the provider adapters' finish-reason mapping, the chat
orchestrator (plan mode, apply mode, continuation), the plan extractor,
the idempotency ledger, and the OpenAI streaming tool-call reconstruction.

The TypeScript sources are embedded shallowly:
- JavaScript runtime values flowing through `JSON.parse` are modelled by
  the inductive type `Js`; JavaScript truthiness by `jsTruthy`.
- `JSON.parse` (a JS builtin, not repository code) is modelled by
  `jsonParse`, a fuel-bounded recursive-descent parser for JSON with the
  same acceptance behaviour on the inputs of interest (strict single
  value, optional surrounding whitespace, double-quoted strings with the
  standard escapes, decimal numbers; surrogate-pair combining and the
  rejection of redundant leading zeros are not modelled).
- Asynchronous calls (the LLM round trip, `Excel.run` batches) are
  modelled by passing their outcome as an explicit argument; a thrown
  JavaScript exception is an `Except.error` carrying the message.
-/

set_option linter.unusedVariables false

namespace ExcelAgent

/-- JSON/JavaScript values as produced by `JSON.parse`. A number is kept
as the unnormalized exact decimal `mant * 10 ^ exp10` (the binary-float
rounding performed by the JavaScript engine is not modelled; no claim
depends on numeric magnitudes beyond zero-ness). -/
inductive Js where
  | null
  | bool (b : Bool)
  | num (mant : Int) (exp10 : Int)
  | str (s : String)
  | arr (elems : List Js)
  | obj (fields : List (String × Js))

/-- JavaScript truthiness of a `Js` value (`null`, `false`, `0`, `''` are
falsy; every array and object is truthy). -/
def jsTruthy : Js → Bool
  | .null => false
  | .bool b => b
  | .num m _ => decide (m ≠ 0)
  | .str s => decide (s ≠ "")
  | .arr _ => true
  | .obj _ => true

/-- Member access `v[k]` on a parsed JSON value: `none` models JavaScript
`undefined` (absent key, or access on a non-object). Matches the last
occurrence of a duplicated key, as `JSON.parse` keeps the last value. -/
def getMember : Js → String → Option Js
  | .obj fields, k => (fields.reverse.find? (fun p => p.1 == k)).map (fun p => p.2)
  | _, _ => none

/-- JavaScript `a || b` for a possibly-undefined value `a`. -/
def jsOr (v : Option Js) (d : Js) : Js :=
  match v with
  | some x => if jsTruthy x then x else d
  | none => d

/-- JavaScript `a || b` for a possibly-undefined string `a`. -/
def jsOrStr (v : Option String) (d : String) : String :=
  match v with
  | some s => if s ≠ "" then s else d
  | none => d

/-- Truthiness of an optional string (undefined and `''` are falsy). -/
def strTruthy (v : Option String) : Bool :=
  match v with
  | some s => decide (s ≠ "")
  | none => false

/-- Whitespace class used both for JSON parsing and for the JavaScript
`\s` regex class / `String.prototype.trim` (ASCII part). -/
def isWs (c : Char) : Bool :=
  c = ' ' || c = '\t' || c = '\n' || c = '\r' || c = '\x0b' || c = '\x0c'

/-- JavaScript `String.prototype.trim`. -/
def jsTrim (s : String) : String :=
  ⟨((s.data.dropWhile isWs).reverse.dropWhile isWs).reverse⟩

/-- Value of a hexadecimal digit. -/
def hexVal (c : Char) : Option Nat :=
  if '0' ≤ c ∧ c ≤ '9' then some (c.toNat - '0'.toNat)
  else if 'a' ≤ c ∧ c ≤ 'f' then some (c.toNat - 'a'.toNat + 10)
  else if 'A' ≤ c ∧ c ≤ 'F' then some (c.toNat - 'A'.toNat + 10)
  else none

/-- Single-character JSON string escapes. -/
def escChar : Char → Option Char
  | 'n' => some '\n'
  | 't' => some '\t'
  | 'r' => some '\r'
  | 'b' => some '\x08'
  | 'f' => some '\x0c'
  | '"' => some '"'
  | '\\' => some '\\'
  | '/' => some '/'
  | _ => none

/-- Scan the body of a JSON string after the opening quote; returns the
decoded characters and the remaining input after the closing quote. -/
def parseStringBody : List Char → Option (List Char × List Char)
  | [] => none
  | '"' :: r => some ([], r)
  | '\\' :: 'u' :: h1 :: h2 :: h3 :: h4 :: r =>
    (match hexVal h1, hexVal h2, hexVal h3, hexVal h4 with
     | some a, some b, some c, some d =>
       (parseStringBody r).map (fun p => (Char.ofNat (((a * 16 + b) * 16 + c) * 16 + d) :: p.1, p.2))
     | _, _, _, _ => none)
  | '\\' :: c :: r =>
    (match escChar c with
     | some e => (parseStringBody r).map (fun p => (e :: p.1, p.2))
     | none => none)
  | c :: r =>
    if c.toNat < 32 then none
    else (parseStringBody r).map (fun p => (c :: p.1, p.2))

/-- Numeric value of a list of decimal digit characters. -/
def digitsVal (ds : List Char) : Nat :=
  ds.foldl (fun a c => a * 10 + (c.toNat - '0'.toNat)) 0

/-- Parse a JSON number (sign, integer part, optional fraction and
exponent) into its exact decimal representation `(mant, exp10)`. -/
def parseNumber (s : List Char) : Option ((Int × Int) × List Char) :=
  let signed := (match s with
    | '-' :: r => (true, r)
    | _ => (false, s))
  let neg := signed.1
  let intSpan := signed.2.span Char.isDigit
  if intSpan.1 = [] then none
  else
    let fracStep : Option (List Char × List Char) := (match intSpan.2 with
      | '.' :: r =>
        let fs := r.span Char.isDigit
        if fs.1 = [] then none else some (fs.1, fs.2)
      | rest => some ([], rest))
    match fracStep with
    | none => none
    | some (fracDs, afterFrac) =>
      let expStep : Option (Bool × List Char × List Char) := (match afterFrac with
        | c :: r =>
          if c = 'e' ∨ c = 'E' then
            let signedE := (match r with
              | '-' :: r2 => (true, r2)
              | '+' :: r2 => (false, r2)
              | _ => (false, r))
            let es := signedE.2.span Char.isDigit
            if es.1 = [] then none else some (signedE.1, es.1, es.2)
          else some (false, [], c :: r)
        | [] => some (false, [], []))
      match expStep with
      | none => none
      | some (eneg, expDs, rest) =>
        let mag : Int := (digitsVal (intSpan.1 ++ fracDs) : Int)
        let mant : Int := if neg then -mag else mag
        let expo : Int := if eneg then -(digitsVal expDs : Int) else (digitsVal expDs : Int)
        some ((mant, expo - (fracDs.length : Int)), rest)

/-- Stack frame of the iterative JSON parser: an array or object whose
elements parsed so far are held in reverse order. -/
inductive JsFrame where
  | inArr (acc : List Js)
  | inObj (acc : List (String × Js)) (key : String)

/-- Iterative LL JSON parser. The second argument holds the value just
completed (`some v`) or signals that a value is expected (`none`). Each
recursive call consumes at least one input character, so fuel
`length + 1` never runs out before natural termination. -/
def pLoop : Nat → List JsFrame → Option Js → List Char → Option (Js × List Char)
  | 0, _, _, _ => none
  | fuel + 1, stack, none, s =>
    (match s.dropWhile isWs with
     | '\x7b' :: r =>
       (match r.dropWhile isWs with
        | '\x7d' :: r2 => pLoop fuel stack (some (.obj [])) r2
        | '"' :: r2 =>
          (match parseStringBody r2 with
           | some (k, r3) =>
             (match r3.dropWhile isWs with
              | ':' :: r4 => pLoop fuel (.inObj [] ⟨k⟩ :: stack) none r4
              | _ => none)
           | none => none)
        | _ => none)
     | '[' :: r =>
       (match r.dropWhile isWs with
        | ']' :: r2 => pLoop fuel stack (some (.arr [])) r2
        | _ => pLoop fuel (.inArr [] :: stack) none r)
     | 'n' :: 'u' :: 'l' :: 'l' :: r => pLoop fuel stack (some .null) r
     | 't' :: 'r' :: 'u' :: 'e' :: r => pLoop fuel stack (some (.bool true)) r
     | 'f' :: 'a' :: 'l' :: 's' :: 'e' :: r => pLoop fuel stack (some (.bool false)) r
     | '"' :: r =>
       (match parseStringBody r with
        | some (cs, r2) => pLoop fuel stack (some (.str ⟨cs⟩)) r2
        | none => none)
     | other =>
       (match parseNumber other with
        | some (q, r) => pLoop fuel stack (some (.num q.1 q.2)) r
        | none => none))
  | fuel + 1, stack, some v, s =>
    (match stack with
     | [] => some (v, s)
     | .inArr acc :: rest =>
       (match s.dropWhile isWs with
        | ',' :: r => pLoop fuel (.inArr (v :: acc) :: rest) none r
        | ']' :: r => pLoop fuel rest (some (.arr (v :: acc).reverse)) r
        | _ => none)
     | .inObj acc k :: rest =>
       (match s.dropWhile isWs with
        | ',' :: r =>
          (match r.dropWhile isWs with
           | '"' :: r2 =>
             (match parseStringBody r2 with
              | some (k2, r3) =>
                (match r3.dropWhile isWs with
                 | ':' :: r4 => pLoop fuel (.inObj ((k, v) :: acc) ⟨k2⟩ :: rest) none r4
                 | _ => none)
              | none => none)
           | _ => none)
        | '\x7d' :: r => pLoop fuel rest (some (.obj ((k, v) :: acc).reverse)) r
        | _ => none))

/-- Model of the JavaScript `JSON.parse` builtin: parse one JSON value,
rejecting trailing non-whitespace input; `none` models a thrown
`SyntaxError`. -/
def jsonParse (s : String) : Option Js :=
  match pLoop (s.length + 1) [] none s.data with
  | some (v, rest) => if rest.dropWhile isWs = [] then some v else none
  | none => none

/-! ### Decimal rendering of JavaScript integers

The template literals of the source (`` `step_${index + 1}` ``,
`` `${baseName} (${counter})` ``) render a nonnegative integer in
decimal. -/

/-- Little-endian decimal digit characters of `n` (fuel-bounded; the fuel
`n` itself always suffices since `n / 10 < n` for `n > 0`). -/
def decAux : Nat → Nat → List Char
  | 0, _ => []
  | fuel + 1, n => if n = 0 then [] else Nat.digitChar (n % 10) :: decAux fuel (n / 10)

/-- Decimal rendering of a natural number, as JavaScript string
interpolation produces for a nonnegative integer. -/
def natToDec (n : Nat) : String :=
  if n = 0 then "0" else ⟨(decAux n n).reverse⟩

/-- Value of a little-endian list of decimal digit characters. -/
def decVal : List Char → Nat
  | [] => 0
  | c :: r => (c.toNat - 48) + 10 * decVal r

theorem digitChar_toNat_of_lt {d : Nat} (h : d < 10) : (Nat.digitChar d).toNat = 48 + d := by
  interval_cases d <;> rfl

theorem decVal_decAux : ∀ fuel n, n ≤ fuel → decVal (decAux fuel n) = n := by
  intro fuel
  induction fuel with
  | zero => intro n h; interval_cases n; rfl
  | succ f ih =>
    intro n h
    by_cases hn : n = 0
    · simp [decAux, hn, decVal]
    · have hdiv : n / 10 ≤ f := by
        have : n / 10 < n := Nat.div_lt_self (Nat.pos_of_ne_zero hn) (by norm_num)
        omega
      simp only [decAux, hn, if_false, decVal]
      rw [digitChar_toNat_of_lt (Nat.mod_lt n (by norm_num)), ih (n / 10) hdiv]
      omega

theorem natToDec_injective : Function.Injective natToDec := by
  intro m n h
  by_cases hm : m = 0 <;> by_cases hn : n = 0
  · omega
  · exfalso
    have hd := congrArg String.data h
    simp only [natToDec, hm, hn, if_true, if_false] at hd
    have : decVal (decAux n n) = n := decVal_decAux n n le_rfl
    have hrev := congrArg List.reverse hd
    simp at hrev
    rw [← hrev] at this
    simp [decVal] at this
    omega
  · exfalso
    have hd := congrArg String.data h
    simp only [natToDec, hm, hn, if_true, if_false] at hd
    have : decVal (decAux m m) = m := decVal_decAux m m le_rfl
    have hrev := congrArg List.reverse hd
    simp at hrev
    rw [hrev] at this
    simp [decVal] at this
    omega
  · have hd := congrArg String.data h
    simp only [natToDec, hm, hn, if_false] at hd
    have hrev := congrArg List.reverse hd
    simp at hrev
    have h1 : decVal (decAux m m) = m := decVal_decAux m m le_rfl
    have h2 : decVal (decAux n n) = n := decVal_decAux n n le_rfl
    rw [hrev] at h1
    omega

/-! ### Tool catalog (`shared/types/tool.ts`, `TOOL_DEFINITIONS`)

Only the fields consulted by the chat orchestrator are embedded: the
tool's `name` and its declared `riskLevel` (the per-tool parameter
schemas are consumed solely by the adapters' schema translation, which no
claim concerns). -/

structure ToolDefinition where
  name : String
  riskLevel : String

/-- The static tool registry, in source order with source risk levels. -/
def TOOL_DEFINITIONS : List ToolDefinition :=
  [ ⟨"getWorkbookSchema", "read"⟩,
    ⟨"getRangeValues", "read"⟩,
    ⟨"createSheet", "write"⟩,
    ⟨"ensureTable", "write"⟩,
    ⟨"writeRange", "write"⟩,
    ⟨"setFormula", "write"⟩,
    ⟨"createChart", "write"⟩,
    ⟨"createPivotTable", "write"⟩,
    ⟨"formatRange", "write"⟩,
    ⟨"addNamedRange", "write"⟩ ]

/-- Catalog risk level of a tool name:
`TOOL_DEFINITIONS.find(t => t.name === name)?.riskLevel`. -/
def catalogRiskLevel (name : String) : Option String :=
  (TOOL_DEFINITIONS.find? (fun t => t.name == name)).map (fun t => t.riskLevel)

/-! ### Finish-reason mapping of the three provider adapters

`OpenAIAdapter.mapFinishReason`, `AnthropicAdapter.mapStopReason`,
`GoogleAdapter.mapFinishReason`. Each is a `switch` on the native
code with a `default` branch; `none` models `null`/`undefined`. -/

inductive FinishReason where
  | stop
  | tool_calls
  | length
  | error
deriving DecidableEq

/-- Embedding of `OpenAIAdapter.mapFinishReason` (`openaiAdapter.ts`). -/
def openaiMapFinishReason (reason : Option String) : FinishReason :=
  match reason with
  | some s =>
    if s = "stop" then .stop
    else if s = "tool_calls" then .tool_calls
    else if s = "length" then .length
    else .stop
  | none => .stop

/-- Embedding of `AnthropicAdapter.mapStopReason` (`anthropicAdapter.ts`). -/
def anthropicMapStopReason (reason : Option String) : FinishReason :=
  match reason with
  | some s =>
    if s = "end_turn" then .stop
    else if s = "tool_use" then .tool_calls
    else if s = "max_tokens" then .length
    else .stop
  | none => .stop

/-- Embedding of `GoogleAdapter.mapFinishReason` (`googleAdapter.ts`). -/
def googleMapFinishReason (reason : Option String) : FinishReason :=
  match reason with
  | some s =>
    if s = "STOP" then .stop
    else if s = "MAX_TOKENS" then .length
    else if s = "SAFETY" ∨ s = "RECITATION" ∨ s = "OTHER" then .error
    else .stop
  | none => .stop

/-! ### Plan extractor (`chatService.ts`, `extractPlanFromResponse`)

The extractor applies three parse strategies in order, stopping as soon
as a strategy's `JSON.parse` yields a truthy value, then validates and
normalizes the result. The whole body sits in a `try/catch` that returns
`null`, so the embedded function is total by construction. -/

/-- The three-backtick code-fence delimiter (written with escapes). -/
def fenceChars : List Char := "\x60\x60\x60".data

/-- Index of the first occurrence of `pat` as a contiguous sublist. -/
def findSubIdx (pat : List Char) : List Char → Option Nat
  | [] => if pat.isPrefixOf ([] : List Char) then some 0 else none
  | c :: r =>
    if pat.isPrefixOf (c :: r) then some 0
    else (findSubIdx pat r).map (fun k => k + 1)

/-- Strategy 2 capture: the regex
`(three backticks)(?:json)?\s*\n?([\s\S]*?)(?:(three backticks)|$)` —
from the first fence, past an optional `json` tag and whitespace, lazily
up to the next fence or the end of input. -/
def strat2Block (content : List Char) : Option (List Char) :=
  match findSubIdx fenceChars content with
  | none => none
  | some i =>
    let r1 := content.drop (i + 3)
    let r2 := if ("json".data).isPrefixOf r1 then r1.drop 4 else r1
    let r3 := r2.dropWhile isWs
    match findSubIdx fenceChars r3 with
    | some j => some (r3.take j)
    | none => some r3

/-- Strategy 2 fallback regex `(\{[\s\S]*\})\s*$` applied to the code
block: the greedy capture runs from the first `{` to the last `}` that is
followed only by whitespace. -/
def strat2TrailingObj (s : List Char) : Option (List Char) :=
  match s.findIdx? (fun c => c = '\x7b') with
  | none => none
  | some p =>
    match s.reverse.findIdx? (fun c => !(isWs c)) with
    | none => none
    | some k =>
      let q := s.length - 1 - k
      if (s.reverse.getD k ' ') = '\x7d' ∧ p < q then
        some ((s.drop p).take (q - p + 1))
      else none

/-- Strategy 3 start: first index matching the regex `\{\s*"plan"`. -/
def strat3Start : List Char → Option Nat
  | [] => none
  | c :: r =>
    if c = '\x7b' ∧ ("\"plan\"".data).isPrefixOf (r.dropWhile isWs) then some 0
    else (strat3Start r).map (fun k => k + 1)

/-- Strategy 3 balanced-brace scan: number of characters consumed until
the running brace count first returns to zero (braces inside string
literals are counted too, exactly as in the source's per-character
loop). -/
def braceScan : List Char → Int → Nat → Option Nat
  | [], _, _ => none
  | c :: r, cnt, n =>
    let cnt1 := if c = '\x7b' then cnt + 1 else cnt
    let cnt2 := if c = '\x7d' then cnt1 - 1 else cnt1
    if cnt2 = 0 then some (n + 1) else braceScan r cnt2 (n + 1)

/-- Strategy 3 extraction: from the `{\s*"plan"` start, the slice up to
the matching close brace; when the count never returns to zero the
source's `endIndex` stays at the start and the slice is empty. -/
def strat3 (content : List Char) : Option (List Char) :=
  match strat3Start content with
  | none => none
  | some p =>
    let tail := content.drop p
    match braceScan tail 0 0 with
    | some len => some (tail.take len)
    | none => some ([] : List Char)

/-- Strategy 1: `JSON.parse(content.trim())`. -/
def strategy1 (content : String) : Option Js :=
  jsonParse (jsTrim content)

/-- Strategy 2: parse the fenced code block; on a parse failure, retry on
the trailing `{...}` object pulled out of the block. A block whose
capture is empty is skipped (`codeBlockMatch[1]` is falsy). -/
def strategy2 (content : String) : Option Js :=
  match strat2Block content.data with
  | none => none
  | some block =>
    if block = [] then none
    else
      let jsonContent := jsTrim ⟨block⟩
      match jsonParse jsonContent with
      | some v => some v
      | none =>
        match strat2TrailingObj jsonContent.data with
        | some sub => jsonParse ⟨sub⟩
        | none => none

/-- Strategy 3: parse the balanced-brace slice at `{\s*"plan"`. -/
def strategy3 (content : String) : Option Js :=
  (strat3 content.data).bind (fun cs => jsonParse ⟨cs⟩)

/-- Truthiness of the mutable `parsed` variable (`null` when no strategy
has assigned it). -/
def jsOptTruthy : Option Js → Bool
  | some v => jsTruthy v
  | none => false

/-- The layered composition of the three strategies: a later strategy
runs only while `parsed` is still falsy, and overwrites `parsed` only
when its own `JSON.parse` succeeds. -/
def layeredParse (content : String) : Option Js :=
  let p1 := strategy1 content
  let p2 := if jsOptTruthy p1 then p1 else
    (match strategy2 content with
     | some v => some v
     | none => p1)
  if jsOptTruthy p2 then p2 else
    (match strategy3 content with
     | some v => some v
     | none => p2)

/-- A plan step as normalized by the extractor. The source casts the raw
JSON fields to the `PlanStep` TypeScript type without runtime checks, so
each field is kept as the raw `Js` value (with its source default);
`toolName` has no default and may be absent (`undefined`). -/
structure ExtractedStep where
  id : Js
  description : Js
  toolName : Option Js
  args : Js
  expectedEffect : Js
  riskLevel : Js
  preconditions : Js
  postconditions : Js

/-- An execution plan as built by the extractor. -/
structure ExtractedPlan where
  id : Js
  createdAt : Nat
  description : Js
  steps : List ExtractedStep
  estimatedTokens : Option Js
  estimatedCost : Option Js

/-- Normalization of one raw step at 0-based position `index`:
`id: step.id || step_<index+1>`, `description: ... || 'Unnamed step'`,
`args: ... || {}`, `expectedEffect: ... || ''`,
`riskLevel: ... || 'write'`, `preconditions`/`postconditions: ... || []`. -/
def normalizeStep (index : Nat) (step : Js) : ExtractedStep :=
  { id := jsOr (getMember step "id") (.str ("step_" ++ natToDec (index + 1)))
    description := jsOr (getMember step "description") (.str "Unnamed step")
    toolName := getMember step "toolName"
    args := jsOr (getMember step "args") (.obj [])
    expectedEffect := jsOr (getMember step "expectedEffect") (.str "")
    riskLevel := jsOr (getMember step "riskLevel") (.str "write")
    preconditions := jsOr (getMember step "preconditions") (.arr [])
    postconditions := jsOr (getMember step "postconditions") (.arr []) }

/-- Map with the 0-based position, as `Array.prototype.map`
passes it. -/
def mapIdxFrom (f : Nat → Js → ExtractedStep) : Nat → List Js → List ExtractedStep
  | _, [] => []
  | i, a :: as => f i a :: mapIdxFrom f (i + 1) as

/-- The acceptance check
`parsed?.plan && Array.isArray(parsed.plan.steps) && parsed.plan.steps.length > 0`:
on success, the `plan` member together with its raw steps array. -/
def validSteps (parsed : Js) : Option (Js × List Js) :=
  match getMember parsed "plan" with
  | some plan =>
    if jsTruthy plan then
      match getMember plan "steps" with
      | some (.arr []) => none
      | some (.arr steps) => some (plan, steps)
      | _ => none
    else none
  | none => none

/-- Embedding of `ChatService.extractPlanFromResponse`. The `uuid` argument stands for
the fresh `uuidv4()` and `now` for `Date.now()`; console logging and the
warn-only tool-name validation loop have no behavioural effect and are
omitted. -/
def extractPlanFromResponse (uuid : String) (now : Nat) (content : String) :
    Option ExtractedPlan :=
  match layeredParse content with
  | none => none
  | some parsed =>
    match validSteps parsed with
    | none => none
    | some (plan, rawSteps) =>
      some
        { id := jsOr (getMember plan "id") (.str ("plan_" ++ uuid))
          createdAt := now
          description := jsOr (getMember plan "description") (.str "Generated plan")
          steps := mapIdxFrom normalizeStep 0 rawSteps
          estimatedTokens := getMember plan "estimatedTokens"
          estimatedCost := getMember plan "estimatedCost" }

/-! ### Chat orchestrator (`chatService.ts`)

The adapter round trip (`adapter.chat(...)`) is a network call; its
outcome is passed in as `Except String ChatCompletionResponse`, where
`Except.error msg` models a thrown exception carrying `msg`. Model
lookup and adapter construction are likewise passed in as booleans. -/

structure Usage where
  promptTokens : Nat
  completionTokens : Nat
  totalTokens : Nat

/-- Embedding of `ChatService.estimateCost`: `(tokens / 1000) * 0.045` (the literal
`0.045` is embedded as the exact rational it denotes in the source text;
binary-float rounding is not modelled, and no claim concerns cost). -/
def estimateCost (tokens : Nat) : Rat :=
  ((tokens : Rat) / 1000) * (45 / 1000)

structure TokenUsageOut where
  promptTokens : Nat
  completionTokens : Nat
  totalTokens : Nat
  estimatedCost : Rat

/-- The `tokenUsage` field attached to `final` chunks. -/
def usageOut (u : Option Usage) : Option TokenUsageOut :=
  u.map (fun x => ⟨x.promptTokens, x.completionTokens, x.totalTokens, estimateCost x.totalTokens⟩)

/-- Embedding of `ChatResponseChunk` (the variants the embedded paths emit). -/
inductive Chunk where
  | text (content : String)
  | toolCall (callId : String) (toolName : String) (args : Js)
  | plan (p : ExtractedPlan)
  | stepProgress (stepId : String) (status : String)
  | final (message : String) (summaryOfChanges : List Js) (tokenUsage : Option TokenUsageOut)
  | error (error : String) (recoverable : Bool)

/-- Embedding of `PlanStep` from `shared/types/plan.ts`, as an approved `planToApply`
arrives after `zod` validation on the `/chat` route. -/
structure PlanStep where
  id : String
  description : String
  toolName : String
  args : Js
  expectedEffect : String
  riskLevel : String
  preconditions : List String
  postconditions : List String

/-- Embedding of `ExecutionPlan` from `shared/types/plan.ts`. -/
structure ExecutionPlan where
  id : String
  createdAt : Nat
  description : String
  steps : List PlanStep
  estimatedTokens : Option Nat
  estimatedCost : Option Rat

/-- A tool call as returned by an adapter (`ProviderToolCall`); the
`arguments` field is the raw JSON string. -/
structure ProviderToolCall where
  id : String
  name : String
  arguments : String
deriving DecidableEq

/-- Provider-neutral completion response (`ChatCompletionResponse`). -/
structure ChatCompletionResponse where
  content : Option String
  toolCalls : Option (List ProviderToolCall)
  finishReason : FinishReason
  usage : Option Usage

/-- Embedding of `ChatServiceResult`. -/
structure ChatServiceResult where
  success : Bool
  response : Option (List Chunk)
  plan : Option ExtractedPlan
  error : Option String

inductive ChatMode where
  | plan
  | apply
deriving DecidableEq

/-- Sequential effectful map over `Except`, mirroring a `for` loop whose
body may throw: the first failure aborts the whole computation. -/
def mapExcept (f : α → Except String β) : List α → Except String (List β)
  | [] => .ok []
  | a :: as =>
    match f a with
    | .error e => .error e
    | .ok b =>
      match mapExcept f as with
      | .error e => .error e
      | .ok bs => .ok (b :: bs)

/-- Emission of one tool-call chunk:
`{type:'tool_call', callId, toolName, args: JSON.parse(arguments)}`.
The `JSON.parse` is not wrapped in a local `try`, so a malformed
arguments string throws (the fixed message stands for the engine's
`SyntaxError`). -/
def parseToolCallChunk (tc : ProviderToolCall) : Except String Chunk :=
  match jsonParse tc.arguments with
  | some args => .ok (.toolCall tc.id tc.name args)
  | none => .error "Unexpected token in JSON"

/-- Embedding of `ChatService.processPlanMode`, given the adapter outcome. -/
def processPlanMode (uuid : String) (now : Nat)
    (adapterOutcome : Except String ChatCompletionResponse) :
    Except String ChatServiceResult := do
  let response ← adapterOutcome
  let planHit : Option ExtractedPlan :=
    if strTruthy response.content then
      extractPlanFromResponse uuid now (response.content.getD "")
    else none
  match planHit with
  | some plan =>
    .ok { success := true
          response := some
            [ .plan plan,
              .final "Plan generated successfully. Review and approve to apply."
                (plan.steps.map (fun s => s.description)) (usageOut response.usage) ]
          plan := some plan
          error := none }
  | none =>
    match response.toolCalls with
    | some tcs =>
      if tcs.length > 0 then do
        let readTools := tcs.filter (fun tc => catalogRiskLevel tc.name == some "read")
        let chunks ← mapExcept parseToolCallChunk readTools
        .ok { success := true, response := some chunks, plan := none, error := none }
      else
        .ok { success := true
              response := some (if strTruthy response.content
                then [Chunk.text (response.content.getD "")] else [])
              plan := none, error := none }
    | none =>
      .ok { success := true
            response := some (if strTruthy response.content
              then [Chunk.text (response.content.getD "")] else [])
            plan := none, error := none }

/-- Embedding of `ChatService.executePlan`: deterministic emission, per step in plan
order, of `step_progress(started)` followed by the step's `tool_call`
with `callId = '<planId>_<stepId>'`. The adapter argument of the source
is never used. -/
def executePlan (plan : ExecutionPlan) : ChatServiceResult :=
  { success := true
    response := some (plan.steps.flatMap (fun step =>
      [ Chunk.stepProgress step.id "started",
        Chunk.toolCall (plan.id ++ "_" ++ step.id) step.toolName step.args ]))
    plan := none
    error := none }

/-- One-step plan used by the C2 witness. -/
def cPlan : ExecutionPlan :=
  ⟨"p1", 0, "demo",
   [⟨"s1", "create the sheet", "createSheet", Js.obj [("name", Js.str "Data")],
     "a new sheet exists", "write", [], []⟩], none, none⟩

/-- Embedding of `ChatService.processApplyMode`: with an approved plan, `executePlan`
without consulting the adapter; otherwise one adapter call whose text and
tool calls are emitted directly. -/
def processApplyMode (planToApply : Option ExecutionPlan)
    (adapterOutcome : Except String ChatCompletionResponse) :
    Except String ChatServiceResult :=
  match planToApply with
  | some plan => .ok (executePlan plan)
  | none => do
    let response ← adapterOutcome
    let textChunks := if strTruthy response.content
      then [Chunk.text (response.content.getD "")] else []
    let tcChunks ← (match response.toolCalls with
      | some tcs => mapExcept parseToolCallChunk tcs
      | none => .ok ([] : List Chunk))
    .ok { success := true, response := some (textChunks ++ tcChunks), plan := none, error := none }

/-- Embedding of `ChatService.processChat`: model lookup, adapter construction, then
the mode dispatch wrapped in `try/catch` — any thrown error is caught and
reported as `{success:false, error}`. -/
def processChat (modelFound adapterCreated : Bool) (modelId provider : String)
    (mode : ChatMode) (planToApply : Option ExecutionPlan) (uuid : String) (now : Nat)
    (adapterOutcome : Except String ChatCompletionResponse) : ChatServiceResult :=
  if !modelFound then
    { success := false, response := none, plan := none,
      error := some ("Model not found or not enabled: " ++ modelId) }
  else if !adapterCreated then
    { success := false, response := none, plan := none,
      error := some ("Failed to create provider adapter for " ++ provider ++
        ". Check API key configuration.") }
  else
    match (if mode = .plan then processPlanMode uuid now adapterOutcome
           else processApplyMode planToApply adapterOutcome) with
    | .ok r => r
    | .error e => { success := false, response := none, plan := none, error := some e }

/-- Embedding of `ChatService.continueWithToolResults`, given the adapter outcome for
the continuation call (the tool-result messages only shape the request
sent to the adapter and are absorbed into that outcome). Unlike
`processChat`, the body after the adapter-construction checks has no
`try/catch`: a thrown error escapes the service as `Except.error`. -/
def continueWithToolResults (modelFound adapterCreated : Bool)
    (modelId provider : String) (mode : ChatMode) (uuid : String) (now : Nat)
    (adapterOutcome : Except String ChatCompletionResponse) :
    Except String ChatServiceResult :=
  if !modelFound then
    .ok { success := false, response := none, plan := none,
          error := some ("Model not found: " ++ modelId) }
  else if !adapterCreated then
    .ok { success := false, response := none, plan := none,
          error := some ("Failed to create provider adapter for " ++ provider) }
  else do
    let response ← adapterOutcome
    let planHit : Option ExtractedPlan :=
      if strTruthy response.content ∧ mode = .plan then
        extractPlanFromResponse uuid now (response.content.getD "")
      else none
    match planHit with
    | some plan =>
      .ok { success := true
            response := some
              [ .plan plan,
                .final "Plan generated successfully."
                  (plan.steps.map (fun s => s.description)) (usageOut response.usage) ]
            plan := some plan
            error := none }
    | none =>
      let textChunks := if strTruthy response.content
        then [Chunk.text (response.content.getD "")] else []
      let tcChunks ← (match response.toolCalls with
        | some tcs => mapExcept parseToolCallChunk tcs
        | none => .ok ([] : List Chunk))
      let finalChunks := if response.finishReason = .stop ∧ response.toolCalls = none then
          [Chunk.final (jsOrStr response.content "Task completed.") []
            (usageOut response.usage)]
        else []
      .ok { success := true, response := some (textChunks ++ tcChunks ++ finalChunks),
            plan := none, error := none }

/-! ### Idempotency ledger (`addin/src/services/ledgerService.ts`)

The IndexedDB object store (keyed on `id`) is modelled as a list of
entries in insertion order; an index lookup is a filter (IndexedDB
returns `getAllFromIndex` results in primary-key order, so only which of
several equal matches becomes `matches[0]` can differ — no claim depends
on that choice). `Excel.run`
batches are asynchronous and may throw, so the live workbook state is
passed as `Except String Workbook` (`Except.error` models a thrown
batch, which `verifyEntry`'s own `try/catch` absorbs into `false`). -/

structure LedgerEntry where
  id : String
  workbookFingerprint : String
  actionType : String
  normalizedArgs : String
  artifactId : String
  artifactName : String
  createdAt : Nat
  lastVerifiedAt : Nat
deriving DecidableEq

structure LedgerQuery where
  workbookFingerprint : Option String
  actionType : Option String
  normalizedArgs : Option String

/-- Embedding of `ReconciliationResult`; the source field `exists` is rendered
`entryExists` (`exists` is not usable as a Lean field name). -/
structure ReconciliationResult where
  entryExists : Bool
  entry : Option LedgerEntry
  verified : Bool
  needsRecreation : Bool
deriving DecidableEq

/-- Live workbook state visible to verification: sheets with their
charts and pivot tables, plus workbook-level tables. -/
structure WorkbookSheet where
  name : String
  chartNames : List String
  pivotNames : List String

structure Workbook where
  sheets : List WorkbookSheet
  tableNames : List String

/-- Embedding of `LedgerService.verifyEntry`: action-specific existence check against
the live workbook; the surrounding `try/catch` turns a thrown `Excel.run`
batch into `false`. Unknown action types verify trivially (`default:
return true`). -/
def verifyEntry (excel : Except String Workbook) (entry : LedgerEntry) : Bool :=
  match excel with
  | .error _ => false
  | .ok wb =>
    if entry.actionType = "createSheet" then
      wb.sheets.any (fun s => s.name == entry.artifactName)
    else if entry.actionType = "createChart" then
      wb.sheets.any (fun s => s.chartNames.any (fun c => c == entry.artifactName))
    else if entry.actionType = "createPivotTable" then
      wb.sheets.any (fun s => s.pivotNames.any (fun p => p == entry.artifactName))
    else if entry.actionType = "createTable" then
      wb.tableNames.any (fun t => t == entry.artifactName)
    else true

/-- The entries matched by a `findEntry` query once both key parts are
truthy: the compound-index lookup plus the optional exact-string filter
on `normalizedArgs` (skipped when that field is absent or empty). -/
def queryMatches (store : List LedgerEntry) (wf at_ : String) (na : Option String) :
    List LedgerEntry :=
  let entries := store.filter (fun e =>
    e.workbookFingerprint == wf && e.actionType == at_)
  if strTruthy na then entries.filter (fun e => e.normalizedArgs == na.getD "")
  else entries

/-- Embedding of `LedgerService.findEntry`. Requires both `workbookFingerprint` and
`actionType` to be truthy; on a hit, verifies the first match against the
live workbook; on a miss returns
`{exists:false, verified:false, needsRecreation:false}`. -/
def findEntry (store : List LedgerEntry) (excel : Except String Workbook)
    (query : LedgerQuery) : ReconciliationResult :=
  if strTruthy query.workbookFingerprint && strTruthy query.actionType then
    match queryMatches store (query.workbookFingerprint.getD "")
        (query.actionType.getD "") query.normalizedArgs with
    | entry :: _ =>
      let verified := verifyEntry excel entry
      { entryExists := true, entry := some entry, verified := verified,
        needsRecreation := !verified }
    | [] => { entryExists := false, entry := none, verified := false, needsRecreation := false }
  else { entryExists := false, entry := none, verified := false, needsRecreation := false }

/-- Model of `db.put` on a store with key path `id`: replace the entry with the
same id, or append. -/
def dbPut (store : List LedgerEntry) (e : LedgerEntry) : List LedgerEntry :=
  if store.any (fun x => x.id == e.id) then
    store.map (fun x => if x.id == e.id then e else x)
  else store ++ [e]

/-- Embedding of `LedgerService.recordEntry`. The generated id
`<actionType>_<Date.now()>_<random>` is supplied as `genId`, and
`Date.now()` as `now`. Returns the full entry and the updated store. -/
def recordEntry (store : List LedgerEntry) (genId : String) (now : Nat)
    (workbookFingerprint actionType normalizedArgs artifactId artifactName : String) :
    LedgerEntry × List LedgerEntry :=
  let fullEntry : LedgerEntry :=
    { id := genId, createdAt := now, lastVerifiedAt := now,
      workbookFingerprint := workbookFingerprint, actionType := actionType,
      normalizedArgs := normalizedArgs, artifactId := artifactId,
      artifactName := artifactName }
  (fullEntry, dbPut store fullEntry)

/-- The candidate name `` `${baseName} (${counter})` ``. -/
def mkCandidate (baseName : String) (counter : Nat) : String :=
  baseName ++ " (" ++ natToDec counter ++ ")"

theorem mkCandidate_injective (baseName : String) :
    Function.Injective (mkCandidate baseName) := by
  intro a b h
  have hd := congrArg String.data h
  simp only [mkCandidate, String.data_append, List.append_assoc] at hd
  have h1 := List.append_cancel_left hd
  have h2 := List.append_cancel_left h1
  have h3 := List.append_cancel_right h2
  exact natToDec_injective (by apply String.ext; exact h3)

/-- Pigeonhole: among the `names.length + 1` pairwise-distinct candidate
names for counters `2, 3, …`, at least one is not in `names` — this is
exactly why the source's `while` loop terminates. -/
theorem exists_free_candidate (baseName : String) (names : List String) :
    ∃ n, mkCandidate baseName (2 + n) ∉ names := by
  by_contra hall
  push_neg at hall
  have hmaps : ∀ n ∈ Finset.range (names.length + 1),
      mkCandidate baseName (2 + n) ∈ names.toFinset := by
    intro n _
    exact List.mem_toFinset.mpr (hall n)
  have hinj : Set.InjOn (fun n => mkCandidate baseName (2 + n))
      (Finset.range (names.length + 1)) := by
    intro x _ y _ hxy
    have := mkCandidate_injective baseName hxy
    omega
  have hcard := Finset.card_le_card_of_injOn _ hmaps hinj
  have hbound := names.toFinset_card_le
  simp [Finset.card_range] at hcard
  omega

/-- Embedding of `LedgerService.generateUniqueName`: the base name if free, otherwise
the first free `base (k)` for `k = 2, 3, …` (`Nat.find` is the exact
denotation of the source's `while` loop, which `exists_free_candidate`
shows terminates). -/
def generateUniqueName (baseName : String) (existingNames : List String) : String :=
  if baseName ∈ existingNames then
    mkCandidate baseName (2 + Nat.find (exists_free_candidate baseName existingNames))
  else baseName

/-- Embedding of `ToolResult` from `shared/types/tool.ts`. -/
structure ToolResult where
  success : Bool
  data : Option Js
  error : Option String
  artifactId : Option String

/-- The tool names gated by the ledger idempotency check in
`useChat.executeToolCall`. -/
def creatingTools : List String :=
  ["createSheet", "createChart", "createPivotTable", "ensureTable"]

/-- Entry and workbook used by the ledger witnesses. -/
def cEntry : LedgerEntry :=
  ⟨"createSheet_1_ab", "Book1:fp", "createSheet", "\x7b\"name\":\"Data\"\x7d",
   "Data", "Data", 0, 0⟩

def cWorkbook : Workbook := ⟨[⟨"Data", [], []⟩], []⟩

/-- Embedding of `useChat.executeToolCall` (`addin/src/hooks/useChat.ts`): consult the
ledger for creating tools and skip execution when the found entry
verifies; otherwise run the tool and, on success with a truthy
`artifactId`, record a ledger entry whose `artifactName` is
`args.name || result.artifactId`. The source awaits
`getWorkbookFingerprint()` twice — once before the lookup and once after
execution, when creation may have changed the sheet-name hash — so the
two computed values are the separate inputs `fingerprint` and
`fingerprintAfter`. Returns the tool result, the updated store, and
whether the underlying tool actually ran. `argsStr` stands for
`JSON.stringify(args)` (deterministic per argument value) and `argsName`
for `args.name`. -/
def executeToolCall (fingerprint fingerprintAfter : String) (excel : Except String Workbook)
    (toolFn : String → String → ToolResult) (store : List LedgerEntry)
    (toolName argsStr : String) (argsName : Option String)
    (genId : String) (now : Nat) : ToolResult × List LedgerEntry × Bool :=
  let runTool : Unit → ToolResult × List LedgerEntry × Bool := fun _ =>
    let result := toolFn toolName argsStr
    if result.success && strTruthy result.artifactId then
      let aid := result.artifactId.getD ""
      (result,
       (recordEntry store genId now fingerprintAfter toolName argsStr aid
         (jsOrStr argsName aid)).2,
       true)
    else (result, store, true)
  if toolName ∈ creatingTools then
    let existing := findEntry store excel
      ⟨some fingerprint, some toolName, some argsStr⟩
    if existing.verified then
      ({ success := true
         data := some (.obj
           [ ("alreadyExists", .bool true),
             ("artifactId", match existing.entry with
               | some e => .str e.artifactId
               | none => .null) ])
         error := none
         artifactId := existing.entry.map (fun e => e.artifactId) },
       store, false)
    else runTool ()
  else runTool ()

/-! ### OpenAI streaming tool-call reconstruction
(`openaiAdapter.ts`, `OpenAIAdapter.streamChat`)

The `for await` loop over stream chunks is embedded as a fold over the
list of per-chunk deltas. The mutable
`Map<number, {id, name, arguments}>` keyed by call index (JavaScript
`Map` iterates in insertion order) is an insertion-ordered association
list. -/

/-- One element of `delta.tool_calls`. -/
structure ToolCallDelta where
  index : Nat
  id : Option String
  name : Option String
  arguments : Option String

/-- One stream chunk's `choices[0]`: its `delta` fields and
`finish_reason`. -/
structure StreamChoiceDelta where
  content : Option String
  toolCalls : Option (List ToolCallDelta)
  finishReason : Option String

/-- Accumulator for one call index. -/
structure AccumToolCall where
  id : String
  name : String
  arguments : String
deriving DecidableEq

/-- Map lookup by call index (`currentToolCalls.get(index)`). -/
def lookupIdx : List (Nat × AccumToolCall) → Nat → Option AccumToolCall
  | [], _ => none
  | (k, a) :: rest, i => if k = i then some a else lookupIdx rest i

/-- Field updates on the current accumulator from one delta: overwrite
`id`/`name` when truthy, append the `arguments` fragment when truthy. -/
def updateAccum (a : AccumToolCall) (d : ToolCallDelta) : AccumToolCall :=
  let a1 := match d.id with
    | some s => if s ≠ "" then { a with id := s } else a
    | none => a
  let a2 := match d.name with
    | some s => if s ≠ "" then { a1 with name := s } else a1
    | none => a1
  match d.arguments with
  | some s => if s ≠ "" then { a2 with arguments := a2.arguments ++ s } else a2
  | none => a2

/-- Processing one `toolCallDelta`: insert a fresh accumulator
(`id: delta.id ?? '', name: delta.name ?? '', arguments: ''`) at the end
of the map when the index is new, then apply the field updates to the
entry at the index. Written as direct recursion over the
insertion-ordered association list; since keys are unique by
construction this coincides with the source's `Map.set`/`get`
mutations. -/
def applyDelta : List (Nat × AccumToolCall) → ToolCallDelta →
    List (Nat × AccumToolCall)
  | [], d => [(d.index, updateAccum ⟨d.id.getD "", d.name.getD "", ""⟩ d)]
  | (k, a) :: rest, d =>
    if k = d.index then (k, updateAccum a d) :: rest
    else (k, a) :: applyDelta rest d

def applyDeltas (st : List (Nat × AccumToolCall)) (ds : List ToolCallDelta) :
    List (Nat × AccumToolCall) :=
  ds.foldl applyDelta st

/-- Finalization of one accumulated call when `finish_reason ===
'tool_calls'` arrives: `JSON.parse` the concatenated arguments exactly
once; on success emit the `tool_call` chunk, on failure emit an `error`
chunk with `recoverable: true` and no `tool_call`. -/
def emitFinal (p : Nat × AccumToolCall) : Chunk :=
  match jsonParse p.2.arguments with
  | some args => .toolCall p.2.id p.2.name args
  | none => .error "Failed to parse tool call arguments: SyntaxError" true

/-- Processing of one stream chunk: yield the text delta when truthy,
fold the tool-call deltas into the accumulator map, and on
`finish_reason === 'tool_calls'` finalize every accumulated call (in
map insertion order). -/
def streamStep (st : List (Nat × AccumToolCall)) (d : StreamChoiceDelta) :
    List (Nat × AccumToolCall) × List Chunk :=
  let textOut := if strTruthy d.content then [Chunk.text (d.content.getD "")] else []
  let st2 := match d.toolCalls with
    | some ds => applyDeltas st ds
    | none => st
  let finalOut := if d.finishReason = some "tool_calls" then st2.map emitFinal else []
  (st2, textOut ++ finalOut)

def streamAux (st : List (Nat × AccumToolCall)) : List StreamChoiceDelta → List Chunk
  | [] => []
  | d :: ds =>
    let r := streamStep st d
    r.2 ++ streamAux r.1 ds

/-- Embedding of `OpenAIAdapter.streamChat`: all chunks yielded over a whole stream. -/
def streamChat (ds : List StreamChoiceDelta) : List Chunk :=
  streamAux [] ds

/-- The accumulator map state after a list of stream chunks. -/
def accumState (st : List (Nat × AccumToolCall)) : List StreamChoiceDelta →
    List (Nat × AccumToolCall)
  | [] => st
  | d :: ds => accumState (streamStep st d).1 ds

/-- The text chunks a list of stream chunks yields. -/
def textChunks (ds : List StreamChoiceDelta) : List Chunk :=
  ds.flatMap (fun d => if strTruthy d.content then [Chunk.text (d.content.getD "")] else [])

/-- The argument fragment one tool-call delta appends (the source skips
falsy — absent or empty — fragments, which is the identity append). -/
def fragArg (d : ToolCallDelta) : String :=
  match d.arguments with
  | some s => if s ≠ "" then s else ""
  | none => ""

/-- The argument fragment one tool-call delta contributes to call index
`i` (empty unless it targets `i`). -/
def fragmentOf (d : ToolCallDelta) (i : Nat) : String :=
  if d.index = i then fragArg d else ""

/-- Arguments string of the map entry for index `i` (empty when the
index has not been seen). -/
def argsAt (st : List (Nat × AccumToolCall)) (i : Nat) : String :=
  match lookupIdx st i with
  | some a => a.arguments
  | none => ""

/-- The argument fragments one stream chunk contributes to call index
`i`, concatenated in delta order. -/
def chunkFrag (d : StreamChoiceDelta) (i : Nat) : String :=
  match d.toolCalls with
  | some tds => tds.foldl (fun a t => a ++ fragmentOf t i) ""
  | none => ""

/-- Concatenation, in stream order, of all argument fragments a whole
stream contributes to call index `i`. -/
def fragmentsConcat : List StreamChoiceDelta → Nat → String
  | [], _ => ""
  | d :: ds, i => chunkFrag d i ++ fragmentsConcat ds i

/-! ### Ledger lemmas -/

theorem mem_queryMatches (store : List LedgerEntry) (wf at_ : String)
    (na : Option String) (e : LedgerEntry) :
    e ∈ queryMatches store wf at_ na ↔
      e ∈ store ∧ e.workbookFingerprint = wf ∧ e.actionType = at_ ∧
        (∀ s, na = some s → s ≠ "" → e.normalizedArgs = s) := by
  rcases na with _ | s
  · simp [queryMatches, strTruthy, List.mem_filter, and_assoc]
  · by_cases hs : s = ""
    · subst hs
      simp [queryMatches, strTruthy, List.mem_filter, and_assoc]
    · have hst : strTruthy (some s) = true := by simp [strTruthy, hs]
      simp only [queryMatches, hst, if_true, List.mem_filter, Bool.and_eq_true,
        beq_iff_eq, Option.getD_some]
      constructor
      · rintro ⟨⟨he, hwf, hat⟩, hna⟩
        exact ⟨he, hwf, hat, fun s' hs' _ => by injection hs' with h; rw [← h]; exact hna⟩
      · rintro ⟨he, hwf, hat, hna⟩
        exact ⟨⟨he, hwf, hat⟩, hna s rfl hs⟩

theorem findEntry_eq (store : List LedgerEntry) (excel : Except String Workbook)
    (wf at_ : String) (na : Option String) (hwf : wf ≠ "") (hat : at_ ≠ "") :
    findEntry store excel ⟨some wf, some at_, na⟩ =
      (match queryMatches store wf at_ na with
       | e :: _ => ⟨true, some e, verifyEntry excel e, !verifyEntry excel e⟩
       | [] => ⟨false, none, false, false⟩) := by
  simp [findEntry, strTruthy, hwf, hat]

theorem findEntry_exists_iff (store : List LedgerEntry) (excel : Except String Workbook)
    (wf at_ : String) (na : Option String) (hwf : wf ≠ "") (hat : at_ ≠ "") :
    (findEntry store excel ⟨some wf, some at_, na⟩).entryExists = true ↔
      ∃ e ∈ store, e.workbookFingerprint = wf ∧ e.actionType = at_ ∧
        (∀ s, na = some s → s ≠ "" → e.normalizedArgs = s) := by
  rw [findEntry_eq store excel wf at_ na hwf hat]
  cases hqm : queryMatches store wf at_ na with
  | nil =>
    simp only []
    constructor
    · intro h
      exact absurd h (by decide)
    · rintro ⟨e, he, h1, h2, h3⟩
      have : e ∈ queryMatches store wf at_ na :=
        (mem_queryMatches store wf at_ na e).mpr ⟨he, h1, h2, h3⟩
      rw [hqm] at this
      simp at this
  | cons e0 rest =>
    constructor
    · intro _
      have he0 : e0 ∈ queryMatches store wf at_ na := by
        rw [hqm]; exact List.mem_cons_self e0 rest
      obtain ⟨he, h1, h2, h3⟩ := (mem_queryMatches store wf at_ na e0).mp he0
      exact ⟨e0, he, h1, h2, h3⟩
    · intro _
      rfl

theorem mem_dbPut_self (store : List LedgerEntry) (e : LedgerEntry) : e ∈ dbPut store e := by
  unfold dbPut
  by_cases h : store.any (fun x => x.id == e.id)
  · rw [if_pos h]
    obtain ⟨x, hx, hbeq⟩ := List.any_eq_true.mp h
    exact List.mem_map.mpr ⟨x, hx, by simp [hbeq]⟩
  · rw [if_neg h]
    simp

/-! ## Claim theorems -/

/-- C3, counterexample. The claim asserts that every provider-specific
blocked-output signal — naming the content filter among them — maps to
`error`; but the OpenAI adapter's native blocked-output code
`content_filter` falls through `mapFinishReason`'s default branch to
`stop`, not `error`. -/
theorem c3_counterexample :
    openaiMapFinishReason (some "content_filter") = FinishReason.stop ∧
    FinishReason.stop ≠ FinishReason.error := by
  exact ⟨rfl, by decide⟩

/-- C3, amended. Each of the three finish-reason mappings is total into
{stop, tool_calls, length, error}; every unrecognized native code
(including `null`/`undefined`) falls back to `stop`; the Google adapter
maps its blocked-output signals `SAFETY` and `RECITATION` (and `OTHER`)
to `error`; the OpenAI adapter maps its blocked-output signal
`content_filter` to `stop` via the default branch, and neither the
OpenAI nor the Anthropic mapping ever produces `error`. -/
theorem c3_finishReason_mapping :
    (∀ r, openaiMapFinishReason r = .stop ∨ openaiMapFinishReason r = .tool_calls ∨
      openaiMapFinishReason r = .length ∨ openaiMapFinishReason r = .error) ∧
    (∀ r, anthropicMapStopReason r = .stop ∨ anthropicMapStopReason r = .tool_calls ∨
      anthropicMapStopReason r = .length ∨ anthropicMapStopReason r = .error) ∧
    (∀ r, googleMapFinishReason r = .stop ∨ googleMapFinishReason r = .tool_calls ∨
      googleMapFinishReason r = .length ∨ googleMapFinishReason r = .error) ∧
    (∀ s : String, s ≠ "stop" → s ≠ "tool_calls" → s ≠ "length" →
      openaiMapFinishReason (some s) = .stop) ∧
    openaiMapFinishReason none = .stop ∧
    (∀ s : String, s ≠ "end_turn" → s ≠ "tool_use" → s ≠ "max_tokens" →
      anthropicMapStopReason (some s) = .stop) ∧
    anthropicMapStopReason none = .stop ∧
    (∀ s : String, s ≠ "STOP" → s ≠ "MAX_TOKENS" → s ≠ "SAFETY" → s ≠ "RECITATION" →
      s ≠ "OTHER" → googleMapFinishReason (some s) = .stop) ∧
    googleMapFinishReason none = .stop ∧
    googleMapFinishReason (some "SAFETY") = .error ∧
    googleMapFinishReason (some "RECITATION") = .error ∧
    googleMapFinishReason (some "OTHER") = .error ∧
    openaiMapFinishReason (some "content_filter") = .stop ∧
    (∀ r, openaiMapFinishReason r ≠ .error) ∧
    (∀ r, anthropicMapStopReason r ≠ .error) := by
  refine ⟨?_, ?_, ?_, ?_, rfl, ?_, rfl, ?_, rfl, rfl, rfl, rfl, rfl, ?_, ?_⟩
  · intro r
    rcases r with _ | s
    · simp [openaiMapFinishReason]
    · simp only [openaiMapFinishReason]
      split_ifs <;> simp
  · intro r
    rcases r with _ | s
    · simp [anthropicMapStopReason]
    · simp only [anthropicMapStopReason]
      split_ifs <;> simp
  · intro r
    rcases r with _ | s
    · simp [googleMapFinishReason]
    · simp only [googleMapFinishReason]
      split_ifs <;> simp
  · intro s h1 h2 h3
    simp [openaiMapFinishReason, h1, h2, h3]
  · intro s h1 h2 h3
    simp [anthropicMapStopReason, h1, h2, h3]
  · intro s h1 h2 h3 h4 h5
    simp [googleMapFinishReason, h1, h2, h3, h4, h5]
  · intro r
    rcases r with _ | s
    · simp [openaiMapFinishReason]
    · simp only [openaiMapFinishReason]
      split_ifs <;> simp
  · intro r
    rcases r with _ | s
    · simp [anthropicMapStopReason]
    · simp only [anthropicMapStopReason]
      split_ifs <;> simp

/-- C3, witness: the amended theorem applied to the unrecognized OpenAI
code `server_overloaded`. -/
theorem c3_witness : openaiMapFinishReason (some "server_overloaded") = .stop :=
  c3_finishReason_mapping.2.2.2.1 "server_overloaded" (by decide) (by decide) (by decide)

/-- C6. `generateUniqueName` returns the base unchanged when it is not
taken; otherwise the candidate `base (k)` for the smallest `k ≥ 2` whose
candidate is free; the returned name is never in the supplied list; and
the three concrete examples of the specification hold. -/
theorem c6_generateUniqueName :
    (∀ (base : String) (names : List String),
      (base ∉ names → generateUniqueName base names = base) ∧
      (base ∈ names → ∃ k, 2 ≤ k ∧
        generateUniqueName base names = mkCandidate base k ∧
        mkCandidate base k ∉ names ∧
        ∀ j, 2 ≤ j → j < k → mkCandidate base j ∈ names) ∧
      generateUniqueName base names ∉ names) ∧
    generateUniqueName "Chart" ["Chart"] = "Chart (2)" ∧
    generateUniqueName "Chart" ["Chart", "Chart (2)"] = "Chart (3)" ∧
    generateUniqueName "X" [] = "X" := by
  refine ⟨?_, ?_, ?_, rfl⟩
  · intro base names
    refine ⟨?_, ?_, ?_⟩
    · intro h
      simp [generateUniqueName, h]
    · intro h
      refine ⟨2 + Nat.find (exists_free_candidate base names), by omega, ?_, ?_, ?_⟩
      · simp [generateUniqueName, h]
      · exact Nat.find_spec (exists_free_candidate base names)
      · intro j h2 hlt
        have hrepr : j = 2 + (j - 2) := by omega
        have hn : j - 2 < Nat.find (exists_free_candidate base names) := by omega
        have := Nat.find_min (exists_free_candidate base names) hn
        rw [not_not] at this
        rw [hrepr]
        exact this
    · by_cases h : base ∈ names
      · simp only [generateUniqueName, h, if_true]
        exact Nat.find_spec (exists_free_candidate base names)
      · simp [generateUniqueName, h]
  · have h0 : Nat.find (exists_free_candidate "Chart" ["Chart"]) = 0 := by
      rw [Nat.find_eq_zero]
      decide
    rw [generateUniqueName, if_pos (by decide : ("Chart" : String) ∈ ["Chart"]), h0]
    rfl
  · have h0 : Nat.find (exists_free_candidate "Chart" ["Chart", "Chart (2)"]) = 1 := by
      rw [Nat.find_eq_iff]
      refine ⟨by decide, ?_⟩
      intro n hn
      interval_cases n
      decide
    rw [generateUniqueName,
      if_pos (by decide : ("Chart" : String) ∈ ["Chart", "Chart (2)"]), h0]
    rfl

/-- C6, witness: the theorem applied to `base = 'Pivot'` absent from
`['Sales']`. -/
theorem c6_witness : generateUniqueName "Pivot" ["Sales"] = "Pivot" :=
  (c6_generateUniqueName.1 "Pivot" ["Sales"]).1 (by decide)

/-- C7. With both key parts supplied (truthy), `findEntry` reports
`exists:true` exactly when the store holds an entry with that fingerprint
and action type (and, when a nonempty `normalizedArgs` is supplied, an
exact string match); on a hit the result carries the matched entry with
`verified` the outcome of live-workbook verification and
`needsRecreation` its negation; on a miss it is
`{exists:false, verified:false, needsRecreation:false}`; and even when
the verification batch throws (`Except.error`), `findEntry` returns
normally with `verified = false` and `needsRecreation = true`. -/
theorem c7_findEntry :
    ∀ (store : List LedgerEntry) (excel : Except String Workbook)
      (wf at_ : String) (na : Option String), wf ≠ "" → at_ ≠ "" →
      (((findEntry store excel ⟨some wf, some at_, na⟩).entryExists = true) ↔
        ∃ e ∈ store, e.workbookFingerprint = wf ∧ e.actionType = at_ ∧
          (∀ s, na = some s → s ≠ "" → e.normalizedArgs = s)) ∧
      ((findEntry store excel ⟨some wf, some at_, na⟩).entryExists = true →
        ∃ e, findEntry store excel ⟨some wf, some at_, na⟩ =
          ⟨true, some e, verifyEntry excel e, !verifyEntry excel e⟩) ∧
      ((findEntry store excel ⟨some wf, some at_, na⟩).entryExists = false →
        findEntry store excel ⟨some wf, some at_, na⟩ = ⟨false, none, false, false⟩) ∧
      (∀ emsg, (findEntry store (.error emsg) ⟨some wf, some at_, na⟩).entryExists = true →
        (findEntry store (.error emsg) ⟨some wf, some at_, na⟩).verified = false ∧
        (findEntry store (.error emsg) ⟨some wf, some at_, na⟩).needsRecreation = true) := by
  intro store excel wf at_ na hwf hat
  refine ⟨findEntry_exists_iff store excel wf at_ na hwf hat, ?_, ?_, ?_⟩
  · rw [findEntry_eq store excel wf at_ na hwf hat]
    cases hqm : queryMatches store wf at_ na with
    | nil => intro h; exact Bool.noConfusion h
    | cons e0 rest => intro _; exact ⟨e0, rfl⟩
  · rw [findEntry_eq store excel wf at_ na hwf hat]
    cases hqm : queryMatches store wf at_ na with
    | nil => intro _; rfl
    | cons e0 rest => intro h; exact Bool.noConfusion h
  · intro emsg
    rw [findEntry_eq store (.error emsg) wf at_ na hwf hat]
    cases hqm : queryMatches store wf at_ na with
    | nil => intro h; exact Bool.noConfusion h
    | cons e0 rest => intro _; exact ⟨rfl, rfl⟩

/-- C7, witness: the characterization applied to a one-entry store whose
entry matches the query. -/
theorem c7_witness :
    (findEntry [cEntry] (.ok cWorkbook)
      ⟨some "Book1:fp", some "createSheet", some "\x7b\"name\":\"Data\"\x7d"⟩).entryExists
      = true :=
  (c7_findEntry [cEntry] (.ok cWorkbook) "Book1:fp" "createSheet"
      (some "\x7b\"name\":\"Data\"\x7d") (by decide) (by decide)).1.mpr
    ⟨cEntry, List.mem_singleton.mpr rfl, rfl, rfl,
      fun s hs _ => Option.some.inj hs⟩

/-- C9. (1) After `recordEntry` stores an entry for a
(fingerprint, actionType, normalizedArgs) triple, `findEntry` on the
identical triple reports `exists:true`. (2) In `executeToolCall`, when
the ledger lookup for a creating tool verifies, the tool is not executed
and the store is unchanged — the result reports `alreadyExists` instead
of creating a second artifact. (3) A query differing in `normalizedArgs`
or fingerprint from everything in the store reports `exists:false`. -/
theorem c9_record_then_find :
    (∀ (store : List LedgerEntry) (excel : Except String Workbook)
       (genId : String) (now : Nat) (wf at_ na aid an : String),
       wf ≠ "" → at_ ≠ "" →
       ((recordEntry store genId now wf at_ na aid an).1.workbookFingerprint = wf ∧
        (recordEntry store genId now wf at_ na aid an).1.actionType = at_ ∧
        (recordEntry store genId now wf at_ na aid an).1.normalizedArgs = na) ∧
       (findEntry (recordEntry store genId now wf at_ na aid an).2 excel
         ⟨some wf, some at_, some na⟩).entryExists = true) ∧
    (∀ (fingerprint fingerprintAfter : String) (excel : Except String Workbook)
       (toolFn : String → String → ToolResult) (store : List LedgerEntry)
       (toolName argsStr : String) (argsName : Option String) (genId : String) (now : Nat),
       toolName ∈ creatingTools →
       (findEntry store excel ⟨some fingerprint, some toolName, some argsStr⟩).verified
         = true →
       (executeToolCall fingerprint fingerprintAfter excel toolFn store toolName argsStr argsName
           genId now).2.2 = false ∧
       (executeToolCall fingerprint fingerprintAfter excel toolFn store toolName argsStr argsName
           genId now).2.1 = store ∧
       (executeToolCall fingerprint fingerprintAfter excel toolFn store toolName argsStr argsName
           genId now).1.success = true ∧
       ∃ rest, (executeToolCall fingerprint fingerprintAfter excel toolFn store toolName argsStr argsName
           genId now).1.data = some (.obj (("alreadyExists", .bool true) :: rest))) ∧
    (∀ (store : List LedgerEntry) (excel : Except String Workbook) (wf at_ na : String),
       wf ≠ "" → at_ ≠ "" → na ≠ "" →
       (∀ e ∈ store, ¬(e.workbookFingerprint = wf ∧ e.actionType = at_ ∧
         e.normalizedArgs = na)) →
       findEntry store excel ⟨some wf, some at_, some na⟩ = ⟨false, none, false, false⟩) := by
  refine ⟨?_, ?_, ?_⟩
  · intro store excel genId now wf at_ na aid an hwf hat
    refine ⟨⟨rfl, rfl, rfl⟩, ?_⟩
    apply (findEntry_exists_iff _ excel wf at_ (some na) hwf hat).mpr
    exact ⟨(recordEntry store genId now wf at_ na aid an).1, mem_dbPut_self store _,
      rfl, rfl, fun s hs _ => Option.some.inj hs⟩
  · intro fingerprint fingerprintAfter excel toolFn store toolName argsStr argsName genId now hmem hv
    have he : executeToolCall fingerprint fingerprintAfter excel toolFn store toolName argsStr argsName
        genId now =
        ({ success := true
           data := some (.obj
             [ ("alreadyExists", .bool true),
               ("artifactId",
                 match (findEntry store excel
                     ⟨some fingerprint, some toolName, some argsStr⟩).entry with
                 | some e => .str e.artifactId
                 | none => Js.null) ])
           error := none
           artifactId := (findEntry store excel
             ⟨some fingerprint, some toolName, some argsStr⟩).entry.map
               (fun e => e.artifactId) }, store, false) := by
      simp only [executeToolCall]
      rw [if_pos hmem, hv]
      simp
    refine ⟨by rw [he], by rw [he], by rw [he], ?_⟩
    refine ⟨[("artifactId",
      match (findEntry store excel ⟨some fingerprint, some toolName, some argsStr⟩).entry with
      | some e => .str e.artifactId
      | none => Js.null)], ?_⟩
    rw [he]
  · intro store excel wf at_ na hwf hat hna hnone
    have hex : ¬((findEntry store excel ⟨some wf, some at_, some na⟩).entryExists = true) := by
      intro h
      obtain ⟨e, he, h1, h2, h3⟩ :=
        (findEntry_exists_iff store excel wf at_ (some na) hwf hat).mp h
      exact hnone e he ⟨h1, h2, h3 na rfl hna⟩
    rw [findEntry_eq store excel wf at_ (some na) hwf hat] at hex ⊢
    cases hqm : queryMatches store wf at_ (some na) with
    | nil => rfl
    | cons e0 rest => rw [hqm] at hex; exact absurd rfl hex

/-- C9, witness: recording an entry into the empty store and finding it
again under the identical triple. -/
theorem c9_witness :
    (findEntry (recordEntry [] "createSheet_5_x" 5 "Book1:fp" "createSheet"
        "\x7b\x7d" "Data" "Data").2 (.ok cWorkbook)
      ⟨some "Book1:fp", some "createSheet", some "\x7b\x7d"⟩).entryExists = true :=
  (c9_record_then_find.1 [] (.ok cWorkbook) "createSheet_5_x" 5 "Book1:fp"
    "createSheet" "\x7b\x7d" "Data" "Data" (by decide) (by decide)).2

theorem validSteps_ne_nil (parsed plan : Js) (raw : List Js)
    (h : validSteps parsed = some (plan, raw)) : raw ≠ [] := by
  intro hraw
  subst hraw
  unfold validSteps at h
  rcases hm : getMember parsed "plan" with _ | plan'
  · simp only [hm] at h
    exact Option.noConfusion h
  · simp only [hm] at h
    by_cases ht : jsTruthy plan' = true
    · rw [if_pos ht] at h
      rcases hs : getMember plan' "steps" with _ | js
      · simp only [hs] at h
        exact Option.noConfusion h
      · cases js with
        | arr l =>
          cases l with
          | nil =>
            simp only [hs] at h
            exact Option.noConfusion h
          | cons a as =>
            simp only [hs] at h
            injection h with h'
            have h2 := congrArg Prod.snd h'
            simp at h2
        | null => simp only [hs] at h; exact Option.noConfusion h
        | bool b => simp only [hs] at h; exact Option.noConfusion h
        | num m e => simp only [hs] at h; exact Option.noConfusion h
        | str s => simp only [hs] at h; exact Option.noConfusion h
        | obj fs => simp only [hs] at h; exact Option.noConfusion h
    · rw [if_neg ht] at h
      exact Option.noConfusion h

/-- C4. Every plan the extractor accepts has its (non-empty) steps array
normalized positionally by `normalizeStep`; and `normalizeStep` turns a
missing `id` into `step_<index+1>` (1-based), a missing `description`
into `'Unnamed step'`, a missing `riskLevel` into `'write'` — never
`'read'` — and missing `preconditions`/`postconditions` into empty
arrays. -/
theorem c4_step_normalization :
    (∀ uuid now content p, extractPlanFromResponse uuid now content = some p →
      ∃ raw, raw ≠ [] ∧ p.steps = mapIdxFrom normalizeStep 0 raw) ∧
    (∀ (i : Nat) (step : Js), getMember step "id" = none →
      (normalizeStep i step).id = .str ("step_" ++ natToDec (i + 1))) ∧
    (∀ (i : Nat) (step : Js), getMember step "description" = none →
      (normalizeStep i step).description = .str "Unnamed step") ∧
    (∀ (i : Nat) (step : Js), getMember step "riskLevel" = none →
      (normalizeStep i step).riskLevel = .str "write" ∧
      (normalizeStep i step).riskLevel ≠ .str "read") ∧
    (∀ (i : Nat) (step : Js), getMember step "preconditions" = none →
      (normalizeStep i step).preconditions = .arr []) ∧
    (∀ (i : Nat) (step : Js), getMember step "postconditions" = none →
      (normalizeStep i step).postconditions = .arr []) := by
  refine ⟨?_, ?_, ?_, ?_, ?_, ?_⟩
  · intro uuid now content p h
    unfold extractPlanFromResponse at h
    rcases hl : layeredParse content with _ | parsed
    · simp only [hl] at h
      exact Option.noConfusion h
    · simp only [hl] at h
      rcases hv : validSteps parsed with _ | ⟨plan, raw⟩
      · simp only [hv] at h
        exact Option.noConfusion h
      · simp only [hv] at h
        refine ⟨raw, validSteps_ne_nil parsed plan raw hv, ?_⟩
        injection h with h'
        rw [← h']
  · intro i step h
    simp [normalizeStep, jsOr, h]
  · intro i step h
    simp [normalizeStep, jsOr, h]
  · intro i step h
    refine ⟨by simp [normalizeStep, jsOr, h], ?_⟩
    simp [normalizeStep, jsOr, h]
  · intro i step h
    simp [normalizeStep, jsOr, h]
  · intro i step h
    simp [normalizeStep, jsOr, h]

/-- C4, witness: normalizing the empty raw step at position 0 yields the
synthesized id `step_1`, description `'Unnamed step'`, risk level
`'write'`, and empty condition arrays. -/
theorem c4_witness :
    (normalizeStep 0 (Js.obj [])).id = .str ("step_" ++ natToDec (0 + 1)) ∧
    (normalizeStep 0 (Js.obj [])).riskLevel = .str "write" :=
  ⟨c4_step_normalization.2.1 0 (Js.obj []) rfl,
   (c4_step_normalization.2.2.2.1 0 (Js.obj []) rfl).1⟩

/-- C5. The extractor is total by construction (mirroring the source's
outer `try/catch`), and returns `null` exactly when the layered parse —
the three strategies tried in order, the first successful `JSON.parse`
short-circuiting — does not yield a value accepted by the
`plan`-with-non-empty-`steps` check; in particular a conversational reply
with no plan JSON yields `null`. -/
theorem c5_extractor_null :
    (∀ uuid now content,
      extractPlanFromResponse uuid now content = none ↔
        ¬∃ parsed, layeredParse content = some parsed ∧
          (validSteps parsed).isSome = true) ∧
    extractPlanFromResponse "u" 0 "The model replied conversationally, no JSON at all."
      = none := by
  constructor
  · intro uuid now content
    unfold extractPlanFromResponse
    rcases hl : layeredParse content with _ | parsed
    · simp
    · rcases hv : validSteps parsed with _ | ⟨plan, raw⟩ <;> simp [hv]
  · rfl

theorem planStepChunks_length (pid : String) (steps : List PlanStep) :
    (steps.flatMap (fun step =>
      [ Chunk.stepProgress step.id "started",
        Chunk.toolCall (pid ++ "_" ++ step.id) step.toolName step.args ])).length =
      2 * steps.length := by
  induction steps with
  | nil => rfl
  | cons s rest ih =>
    rw [List.flatMap_cons, List.length_append, ih]
    simp [List.length_cons]
    ring

theorem planStepChunks_get (pid : String) :
    ∀ (steps : List PlanStep) (i : Nat) (h : i < steps.length),
      (steps.flatMap (fun step =>
        [ Chunk.stepProgress step.id "started",
          Chunk.toolCall (pid ++ "_" ++ step.id) step.toolName step.args ]))[2 * i]? =
        some (.stepProgress steps[i].id "started") ∧
      (steps.flatMap (fun step =>
        [ Chunk.stepProgress step.id "started",
          Chunk.toolCall (pid ++ "_" ++ step.id) step.toolName step.args ]))[2 * i + 1]? =
        some (.toolCall (pid ++ "_" ++ steps[i].id) steps[i].toolName steps[i].args) := by
  intro steps
  induction steps with
  | nil => intro i h; exact absurd h (by simp)
  | cons s rest ih =>
    intro i h
    cases i with
    | zero => exact ⟨by simp [List.flatMap_cons], by simp [List.flatMap_cons]⟩
    | succ j =>
      have hj : j < rest.length := by
        have hl : (s :: rest).length = rest.length + 1 := rfl
        omega
      obtain ⟨ih1, ih2⟩ := ih j hj
      constructor
      · have e1 : 2 * (j + 1) = 2 + 2 * j := by ring
        rw [List.flatMap_cons, e1, List.getElem?_append_right (by simp)]
        simpa using ih1
      · have e2 : 2 * (j + 1) + 1 = 2 + (2 * j + 1) := by ring
        rw [List.flatMap_cons, e2, List.getElem?_append_right (by simp)]
        simpa using ih2

/-- C2. With an approved plan supplied, apply mode is independent of the
adapter outcome (no LLM call is consulted), returns `executePlan plan`,
and the emitted chunk list is exactly, for each step in plan order, a
`step_progress(started)` chunk followed by that step's `tool_call` chunk
with callId `<planId>_<stepId>` — position `2*i` and `2*i+1` for step
`i`, total length `2 * steps.length`, so nothing is reordered, dropped,
or interleaved. -/
theorem c2_apply_with_plan :
    ∀ (plan : ExecutionPlan) (o1 o2 : Except String ChatCompletionResponse),
      processApplyMode (some plan) o1 = processApplyMode (some plan) o2 ∧
      processApplyMode (some plan) o1 = .ok (executePlan plan) ∧
      (executePlan plan).success = true ∧
      (executePlan plan).plan = none ∧
      (executePlan plan).error = none ∧
      (executePlan plan).response = some (plan.steps.flatMap (fun step =>
        [ Chunk.stepProgress step.id "started",
          Chunk.toolCall (plan.id ++ "_" ++ step.id) step.toolName step.args ])) ∧
      (plan.steps.flatMap (fun step =>
        [ Chunk.stepProgress step.id "started",
          Chunk.toolCall (plan.id ++ "_" ++ step.id) step.toolName step.args ])).length =
        2 * plan.steps.length ∧
      ∀ (i : Nat) (h : i < plan.steps.length),
        (plan.steps.flatMap (fun step =>
          [ Chunk.stepProgress step.id "started",
            Chunk.toolCall (plan.id ++ "_" ++ step.id) step.toolName step.args ]))[2 * i]? =
          some (.stepProgress plan.steps[i].id "started") ∧
        (plan.steps.flatMap (fun step =>
          [ Chunk.stepProgress step.id "started",
            Chunk.toolCall (plan.id ++ "_" ++ step.id) step.toolName
              step.args ]))[2 * i + 1]? =
          some (.toolCall (plan.id ++ "_" ++ plan.steps[i].id) plan.steps[i].toolName
            plan.steps[i].args) := by
  intro plan o1 o2
  exact ⟨rfl, rfl, rfl, rfl, rfl, rfl, planStepChunks_length plan.id plan.steps,
    planStepChunks_get plan.id plan.steps⟩

/-- C2, witness: the theorem applied to a concrete one-step plan at
position 0, with two different adapter outcomes. -/
theorem c2_witness :
    (cPlan.steps.flatMap (fun step =>
      [ Chunk.stepProgress step.id "started",
        Chunk.toolCall (cPlan.id ++ "_" ++ step.id) step.toolName step.args ]))[0]? =
      some (.stepProgress "s1" "started") :=
  ((c2_apply_with_plan cPlan (.error "boom")
    (.ok ⟨none, none, .stop, none⟩)).2.2.2.2.2.2.2 0 (by decide)).1

theorem mapExcept_ok_mem {α β : Type} (f : α → Except String β) :
    ∀ (l : List α) (out : List β), mapExcept f l = .ok out →
      ∀ b ∈ out, ∃ a ∈ l, f a = .ok b := by
  intro l
  induction l with
  | nil =>
    intro out h b hb
    injection h with h'
    rw [← h'] at hb
    simp at hb
  | cons a as ih =>
    intro out h b hb
    unfold mapExcept at h
    rcases hf : f a with e | b0
    · simp only [hf] at h
      exact Except.noConfusion h
    · simp only [hf] at h
      rcases hm : mapExcept f as with e | bs
      · simp only [hm] at h
        exact Except.noConfusion h
      · simp only [hm] at h
        injection h with h'
        rw [← h'] at hb
        rcases List.mem_cons.mp hb with rfl | hb'
        · exact ⟨a, List.mem_cons_self a as, hf⟩
        · obtain ⟨a', ha', hfa'⟩ := ih bs hm b hb'
          exact ⟨a', List.mem_cons_of_mem a ha', hfa'⟩

/-- C1. The fresh-turn plan-mode path (`processPlanMode`) does satisfy
the safety invariant: every `tool_call` chunk it emits references a tool
of catalog risk level `read`. But the continuation path
(`continueWithToolResults`) emits the model's tool calls without any risk
filter even in plan mode: on a concrete plan-mode continuation response
proposing `createSheet` — a catalog `write` tool — the emitted chunk list
contains that `tool_call` chunk, contradicting the claim (and the
spec's stated hard safety invariant). -/
theorem c1_plan_mode_read_only :
    (∀ (uuid : String) (now : Nat) (resp : ChatCompletionResponse)
       (result : ChatServiceResult),
       processPlanMode uuid now (.ok resp) = .ok result →
       ∀ (chunks : List Chunk), result.response = some chunks →
       ∀ (callId toolName : String) (args : Js),
         Chunk.toolCall callId toolName args ∈ chunks →
         catalogRiskLevel toolName = some "read") ∧
    (continueWithToolResults true true "m1" "openai" .plan "u" 0
      (.ok ⟨none, some [⟨"call_1", "createSheet", "\x7b\x7d"⟩], .tool_calls, none⟩) =
      .ok ⟨true, some [Chunk.toolCall "call_1" "createSheet" (Js.obj [])], none, none⟩) ∧
    catalogRiskLevel "createSheet" = some "write" := by
  refine ⟨?_, rfl, rfl⟩
  intro uuid now resp result h chunks hresp callId toolName args hmem
  unfold processPlanMode at h
  simp only [bind, Except.bind] at h
  cases hph : (if strTruthy resp.content = true then
      extractPlanFromResponse uuid now (resp.content.getD "") else none) with
  | some plan =>
    simp only [hph] at h
    injection h with h'
    rw [← h'] at hresp
    injection hresp with h''
    rw [← h''] at hmem
    simp at hmem
  | none =>
    simp only [hph] at h
    rcases ht : resp.toolCalls with _ | tcs
    · simp only [ht] at h
      injection h with h'
      rw [← h'] at hresp
      injection hresp with h''
      rw [← h''] at hmem
      by_cases hc : strTruthy resp.content = true
      · rw [if_pos hc] at hmem
        simp at hmem
      · rw [if_neg hc] at hmem
        simp at hmem
    · simp only [ht] at h
      by_cases hlen : tcs.length > 0
      · rw [if_pos hlen] at h
        rcases hmap : mapExcept parseToolCallChunk
            (tcs.filter (fun tc => catalogRiskLevel tc.name == some "read")) with e | out
        · simp only [hmap, bind, Except.bind] at h
          exact Except.noConfusion h
        · simp only [hmap, bind, Except.bind] at h
          injection h with h'
          rw [← h'] at hresp
          injection hresp with h''
          rw [← h''] at hmem
          obtain ⟨tc, htc, hparse⟩ := mapExcept_ok_mem parseToolCallChunk _ out hmap _ hmem
          have hrisk := (List.mem_filter.mp htc).2
          unfold parseToolCallChunk at hparse
          rcases hj : jsonParse tc.arguments with _ | v
          · simp only [hj] at hparse
            exact Except.noConfusion hparse
          · simp only [hj] at hparse
            injection hparse with hc'
            injection hc' with h1 h2 h3
            rw [← h2]
            exact beq_iff_eq.mp hrisk
      · rw [if_neg hlen] at h
        injection h with h'
        rw [← h'] at hresp
        injection hresp with h''
        rw [← h''] at hmem
        by_cases hc : strTruthy resp.content = true
        · rw [if_pos hc] at hmem
          simp at hmem
        · rw [if_neg hc] at hmem
          simp at hmem

/-- C1, witness: the fresh-turn half applied to a concrete response whose
single proposed call is the read tool `getRangeValues`. -/
theorem c1_witness : catalogRiskLevel "getRangeValues" = some "read" :=
  c1_plan_mode_read_only.1 "u" 0
    ⟨none, some [⟨"c9", "getRangeValues", "\x7b\x7d"⟩], .tool_calls, none⟩
    ⟨true, some [Chunk.toolCall "c9" "getRangeValues" (Js.obj [])], none, none⟩ rfl
    [Chunk.toolCall "c9" "getRangeValues" (Js.obj [])] rfl
    "c9" "getRangeValues" (Js.obj []) (List.mem_singleton.mpr rfl)

/-- C8, counterexample. An exception thrown during the continuation turn
(here: the adapter call failing) is not caught inside the chat service:
`continueWithToolResults` propagates it to its caller instead of
returning `{success:false, error}`. -/
theorem c8_counterexample :
    continueWithToolResults true true "m1" "openai" .plan "u" 0 (.error "Network failure") =
      .error "Network failure" := rfl

/-- C8, amended. In `processChat` (the initial turn) every thrown error
is caught and returned as `{success:false, error}`, and model-lookup /
adapter-construction failures are reported the same way in both entry
points; but in `continueWithToolResults` only those two leading checks
produce `{success:false}` — an error thrown during continuation
processing propagates out of the chat service to the HTTP route layer. -/
theorem c8_error_handling :
    (∀ (modelId provider : String) (pta : Option ExecutionPlan) (uuid : String)
       (now : Nat) (e : String),
       processChat true true modelId provider .plan pta uuid now (.error e) =
         ⟨false, none, none, some e⟩) ∧
    (∀ (modelId provider uuid : String) (now : Nat) (e : String),
       processChat true true modelId provider .apply none uuid now (.error e) =
         ⟨false, none, none, some e⟩) ∧
    (∀ (modelId provider : String) (mode : ChatMode) (pta : Option ExecutionPlan)
       (uuid : String) (now : Nat) (o : Except String ChatCompletionResponse),
       processChat false true modelId provider mode pta uuid now o =
         ⟨false, none, none, some ("Model not found or not enabled: " ++ modelId)⟩) ∧
    (∀ (modelId provider : String) (mode : ChatMode) (pta : Option ExecutionPlan)
       (uuid : String) (now : Nat) (o : Except String ChatCompletionResponse),
       processChat true false modelId provider mode pta uuid now o =
         ⟨false, none, none, some ("Failed to create provider adapter for " ++ provider ++
           ". Check API key configuration.")⟩) ∧
    (∀ (ac : Bool) (modelId provider : String) (mode : ChatMode) (uuid : String)
       (now : Nat) (o : Except String ChatCompletionResponse),
       continueWithToolResults false ac modelId provider mode uuid now o =
         .ok ⟨false, none, none, some ("Model not found: " ++ modelId)⟩) ∧
    (∀ (modelId provider : String) (mode : ChatMode) (uuid : String) (now : Nat)
       (o : Except String ChatCompletionResponse),
       continueWithToolResults true false modelId provider mode uuid now o =
         .ok ⟨false, none, none,
           some ("Failed to create provider adapter for " ++ provider)⟩) ∧
    (∀ (modelId provider : String) (mode : ChatMode) (uuid : String) (now : Nat)
       (e : String),
       continueWithToolResults true true modelId provider mode uuid now (.error e) =
         .error e) := by
  refine ⟨?_, ?_, ?_, ?_, ?_, ?_, ?_⟩
  · intro modelId provider pta uuid now e
    rfl
  · intro modelId provider uuid now e
    rfl
  · intro modelId provider mode pta uuid now o
    rfl
  · intro modelId provider mode pta uuid now o
    rfl
  · intro ac modelId provider mode uuid now o
    rfl
  · intro modelId provider mode uuid now o
    rfl
  · intro modelId provider mode uuid now e
    rfl

/-! ### Streaming lemmas -/

theorem updateAccum_arguments (a : AccumToolCall) (d : ToolCallDelta) :
    (updateAccum a d).arguments = a.arguments ++ fragArg d := by
  rcases hdi : d.id with _ | si <;> rcases hdn : d.name with _ | sn <;>
    rcases hda : d.arguments with _ | sa <;>
    simp only [updateAccum, fragArg, hdi, hdn, hda] <;>
    first
    | (split_ifs <;> simp [String.append_empty])
    | simp [String.append_empty]

theorem argsAt_applyDelta (st : List (Nat × AccumToolCall)) (d : ToolCallDelta)
    (i : Nat) : argsAt (applyDelta st d) i = argsAt st i ++ fragmentOf d i := by
  induction st with
  | nil =>
    by_cases hi : d.index = i
    · simp [applyDelta, argsAt, lookupIdx, hi, fragmentOf, updateAccum_arguments,
        String.empty_append]
    · simp [applyDelta, argsAt, lookupIdx, hi, fragmentOf, String.append_empty]
  | cons p rest ih =>
    obtain ⟨k, a⟩ := p
    by_cases hk : k = d.index
    · by_cases hi : k = i
      · have hdi : d.index = i := hk.symm.trans hi
        simp only [applyDelta, if_pos hk, argsAt, lookupIdx, if_pos hi, fragmentOf,
          if_pos hdi]
        exact updateAccum_arguments a d
      · have hdi : ¬d.index = i := fun h => hi (hk.trans h)
        simp only [applyDelta, if_pos hk, argsAt, lookupIdx, if_neg hi, fragmentOf,
          if_neg hdi]
        exact (String.append_empty _).symm
    · by_cases hi : k = i
      · have hdi : ¬d.index = i := fun h => hk (hi.trans h.symm)
        simp only [applyDelta, if_neg hk, argsAt, lookupIdx, if_pos hi, fragmentOf,
          if_neg hdi]
        exact (String.append_empty _).symm
      · simp only [applyDelta, if_neg hk, argsAt, lookupIdx, if_neg hi]
        simp only [argsAt] at ih
        exact ih

theorem foldl_append_str (g : ToolCallDelta → String) :
    ∀ (l : List ToolCallDelta) (init : String),
      l.foldl (fun a t => a ++ g t) init =
        init ++ l.foldl (fun a t => a ++ g t) "" := by
  intro l
  induction l with
  | nil => intro init; simp [String.append_empty]
  | cons t l ih =>
    intro init
    simp only [List.foldl_cons]
    rw [ih (init ++ g t), ih ("" ++ g t), String.empty_append, String.append_assoc]

theorem argsAt_applyDeltas (tds : List ToolCallDelta) :
    ∀ (st : List (Nat × AccumToolCall)) (i : Nat),
      argsAt (applyDeltas st tds) i =
        argsAt st i ++ tds.foldl (fun a t => a ++ fragmentOf t i) "" := by
  induction tds with
  | nil => intro st i; simp [applyDeltas, String.append_empty]
  | cons t tds ih =>
    intro st i
    show argsAt (applyDeltas (applyDelta st t) tds) i = _
    rw [ih (applyDelta st t) i, argsAt_applyDelta]
    simp only [List.foldl_cons]
    rw [foldl_append_str (fun t => fragmentOf t i) tds ("" ++ fragmentOf t i),
      String.empty_append, String.append_assoc]

theorem argsAt_streamStep (st : List (Nat × AccumToolCall)) (d : StreamChoiceDelta)
    (i : Nat) : argsAt ((streamStep st d).1) i = argsAt st i ++ chunkFrag d i := by
  unfold streamStep chunkFrag
  rcases ht : d.toolCalls with _ | tds
  · simp [String.append_empty]
  · simp [argsAt_applyDeltas]

theorem argsAt_accumState (ds : List StreamChoiceDelta) :
    ∀ (st : List (Nat × AccumToolCall)) (i : Nat),
      argsAt (accumState st ds) i = argsAt st i ++ fragmentsConcat ds i := by
  induction ds with
  | nil => intro st i; simp [accumState, fragmentsConcat, String.append_empty]
  | cons d ds ih =>
    intro st i
    show argsAt (accumState (streamStep st d).1 ds) i = _
    rw [ih (streamStep st d).1 i, argsAt_streamStep]
    simp only [fragmentsConcat]
    rw [String.append_assoc]

theorem applyDelta_fst_mem (st : List (Nat × AccumToolCall)) (d : ToolCallDelta)
    (x : Nat) (h : x ∈ (applyDelta st d).map Prod.fst) :
    x ∈ st.map Prod.fst ∨ x = d.index := by
  induction st with
  | nil =>
    simp [applyDelta] at h
    exact Or.inr h
  | cons p rest ih =>
    obtain ⟨k, a⟩ := p
    by_cases hk : k = d.index
    · subst hk
      simp only [applyDelta, if_pos rfl, List.map_cons] at h
      rcases List.mem_cons.mp h with rfl | h'
      · exact Or.inl (by simp)
      · exact Or.inl (by simp [h'])
    · simp only [applyDelta, if_neg hk, List.map_cons] at h
      rcases List.mem_cons.mp h with rfl | h'
      · exact Or.inl (by simp)
      · rcases ih h' with hmem | heq
        · exact Or.inl (List.mem_cons_of_mem _ hmem)
        · exact Or.inr heq

theorem applyDelta_nodup (st : List (Nat × AccumToolCall)) (d : ToolCallDelta)
    (h : (st.map Prod.fst).Nodup) : ((applyDelta st d).map Prod.fst).Nodup := by
  induction st with
  | nil => simp [applyDelta]
  | cons p rest ih =>
    obtain ⟨k, a⟩ := p
    simp only [List.map_cons, List.nodup_cons] at h
    obtain ⟨hk1, hk2⟩ := h
    by_cases hk : k = d.index
    · simp only [applyDelta, if_pos hk, List.map_cons, List.nodup_cons]
      exact ⟨hk1, hk2⟩
    · simp only [applyDelta, if_neg hk, List.map_cons, List.nodup_cons]
      refine ⟨?_, ih hk2⟩
      intro hmem
      rcases applyDelta_fst_mem rest d k hmem with hmem' | heq
      · exact hk1 hmem'
      · exact hk heq

theorem applyDeltas_nodup (tds : List ToolCallDelta) :
    ∀ (st : List (Nat × AccumToolCall)), (st.map Prod.fst).Nodup →
      ((applyDeltas st tds).map Prod.fst).Nodup := by
  induction tds with
  | nil => intro st h; exact h
  | cons t tds ih =>
    intro st h
    exact ih (applyDelta st t) (applyDelta_nodup st t h)

theorem streamStep_nodup (st : List (Nat × AccumToolCall)) (d : StreamChoiceDelta)
    (h : (st.map Prod.fst).Nodup) : (((streamStep st d).1).map Prod.fst).Nodup := by
  unfold streamStep
  rcases ht : d.toolCalls with _ | tds
  · simpa using h
  · simpa using applyDeltas_nodup tds st h

theorem accumState_nodup (ds : List StreamChoiceDelta) :
    ∀ (st : List (Nat × AccumToolCall)), (st.map Prod.fst).Nodup →
      ((accumState st ds).map Prod.fst).Nodup := by
  induction ds with
  | nil => intro st h; exact h
  | cons d ds ih =>
    intro st h
    exact ih (streamStep st d).1 (streamStep_nodup st d h)

theorem streamStep_snd_no_finish (st : List (Nat × AccumToolCall))
    (d : StreamChoiceDelta) (h : d.finishReason ≠ some "tool_calls") :
    (streamStep st d).2 =
      (if strTruthy d.content = true then [Chunk.text (d.content.getD "")] else []) := by
  unfold streamStep
  simp [h]

theorem textChunks_append (l1 l2 : List StreamChoiceDelta) :
    textChunks (l1 ++ l2) = textChunks l1 ++ textChunks l2 := by
  simp [textChunks]

theorem accumState_append (l1 : List StreamChoiceDelta) :
    ∀ (l2 : List StreamChoiceDelta) (st : List (Nat × AccumToolCall)),
      accumState st (l1 ++ l2) = accumState (accumState st l1) l2 := by
  induction l1 with
  | nil => intro l2 st; rfl
  | cons d l1 ih =>
    intro l2 st
    show accumState (streamStep st d).1 (l1 ++ l2) = _
    rw [ih l2 (streamStep st d).1]
    rfl

theorem streamAux_append_last (ds : List StreamChoiceDelta) :
    ∀ (st : List (Nat × AccumToolCall)) (dl : StreamChoiceDelta),
      (∀ d ∈ ds, d.finishReason ≠ some "tool_calls") →
      streamAux st (ds ++ [dl]) = textChunks ds ++ (streamStep (accumState st ds) dl).2 := by
  induction ds with
  | nil =>
    intro st dl h
    show (streamStep st dl).2 ++ streamAux (streamStep st dl).1 [] = _
    simp [streamAux, textChunks, accumState]
  | cons d ds ih =>
    intro st dl h
    have hd : d.finishReason ≠ some "tool_calls" := h d (List.mem_cons_self d ds)
    have hds : ∀ d' ∈ ds, d'.finishReason ≠ some "tool_calls" :=
      fun d' hd' => h d' (List.mem_cons_of_mem d hd')
    show (streamStep st d).2 ++ streamAux (streamStep st d).1 (ds ++ [dl]) = _
    rw [ih (streamStep st d).1 dl hds, streamStep_snd_no_finish st d hd]
    show _ = textChunks (d :: ds) ++ _
    simp only [textChunks, List.flatMap_cons, List.append_assoc]
    rfl

/-- C10. For any OpenAI stream whose `finish_reason: tool_calls` marker
arrives only on the final chunk: the yielded chunks are the incremental
text chunks followed by, for each accumulated call index exactly once
(the map's keys are pairwise distinct), one finalization chunk; each
accumulator's `arguments` is the concatenation, in stream order, of all
argument fragments delivered for that call index; and the finalization
chunk is the `tool_call` with the once-parsed arguments when `JSON.parse`
succeeds, and an `error` chunk with `recoverable: true` — never a
`tool_call` — when it fails. -/
theorem c10_streaming_reconstruction :
    ∀ (ds : List StreamChoiceDelta) (dl : StreamChoiceDelta),
      (∀ d ∈ ds, d.finishReason ≠ some "tool_calls") →
      dl.finishReason = some "tool_calls" →
      (streamChat (ds ++ [dl]) =
        textChunks (ds ++ [dl]) ++ (accumState [] (ds ++ [dl])).map emitFinal) ∧
      ((accumState [] (ds ++ [dl])).map Prod.fst).Nodup ∧
      (∀ (i : Nat) (a : AccumToolCall), lookupIdx (accumState [] (ds ++ [dl])) i = some a →
        a.arguments = fragmentsConcat (ds ++ [dl]) i) ∧
      (∀ (i : Nat) (a : AccumToolCall),
        (∀ v, jsonParse a.arguments = some v → emitFinal (i, a) = .toolCall a.id a.name v) ∧
        (jsonParse a.arguments = none →
          emitFinal (i, a) = .error "Failed to parse tool call arguments: SyntaxError" true)) ∧
      (∀ c ∈ textChunks (ds ++ [dl]), ∃ s, c = Chunk.text s) := by
  intro ds dl hds hdl
  have hstate : accumState [] (ds ++ [dl]) = (streamStep (accumState [] ds) dl).1 := by
    rw [accumState_append ds [dl] []]
    rfl
  refine ⟨?_, ?_, ?_, ?_, ?_⟩
  · show streamAux [] (ds ++ [dl]) = _
    rw [streamAux_append_last ds [] dl hds, textChunks_append, hstate]
    have hsnd : (streamStep (accumState [] ds) dl).2 =
        (if strTruthy dl.content = true then [Chunk.text (dl.content.getD "")] else []) ++
          ((streamStep (accumState [] ds) dl).1).map emitFinal := by
      unfold streamStep
      simp [hdl]
    rw [hsnd]
    simp [textChunks, List.append_assoc]
  · exact accumState_nodup (ds ++ [dl]) [] (by simp)
  · intro i a ha
    have h1 := argsAt_accumState (ds ++ [dl]) [] i
    rw [show argsAt [] i = "" from rfl, String.empty_append] at h1
    rw [← h1]
    simp [argsAt, ha]
  · intro i a
    constructor
    · intro v hv
      simp [emitFinal, hv]
    · intro hn
      simp [emitFinal, hn]
  · intro c hc
    simp only [textChunks, List.mem_flatMap] at hc
    obtain ⟨d, _, hcd⟩ := hc
    by_cases hcon : strTruthy d.content = true
    · rw [if_pos hcon] at hcd
      exact ⟨d.content.getD "", List.mem_singleton.mp hcd⟩
    · rw [if_neg hcon] at hcd
      simp at hcd

/-- C10, witness: the specification's P8 stream — fragments `'{"a":'`
and `'1}'` for call index 0, finish marker on the final chunk — emits
exactly one `tool_call` chunk with `args = {a: 1}`. -/
theorem c10_witness :
    streamChat
      [ ⟨none, some [⟨0, some "call_1", some "createChart", some "\x7b\"a\":"⟩], none⟩,
        ⟨none, some [⟨0, none, none, some "1\x7d"⟩], some "tool_calls"⟩ ] =
      [Chunk.toolCall "call_1" "createChart" (Js.obj [("a", Js.num 1 0)])] := by
  have h := (c10_streaming_reconstruction
    [⟨none, some [⟨0, some "call_1", some "createChart", some "\x7b\"a\":"⟩], none⟩]
    ⟨none, some [⟨0, none, none, some "1\x7d"⟩], some "tool_calls"⟩
    (by intro d hd; rcases List.mem_singleton.mp hd with rfl; simp)
    rfl).1
  rw [List.singleton_append] at h
  rw [h]
  rfl

end ExcelAgent
